import Mathlib

/-!
Shallow embedding of the `rp2040-async` runtime sources — `src/sync.rs`
(manually counted `Arc`), `src/executor.rs` (global task queue, waker
vtable, `TaskHandle`), `src/reactor.rs` (interrupt dispatcher) and
`src/jumpstart.rs` (core-1 bootstrap handshake and MPU stack guard) —
together with theorems checking the specification's claims against it.

Machine integers are modelled as `Nat` with explicit `% 2^32` where the
source performs 32-bit wrapping arithmetic; fallible operations return
`Option`; lock-protected mutations are modelled as atomic steps (the
internal spinlock of each `Mutex` is what makes them atomic in the
source).
-/

/-! ## `sync.rs`: the manually reference-counted `Arc`

`Arc::new` allocates an `ArcInner` with `ref_count: Mutex::new(1)`
(sync.rs:82-90).  `Arc::clone` locks the count and increments it
(sync.rs:106-117).  `Arc::drop` locks the count, decrements it, and when
the result is zero frees the backing `Box` (sync.rs:119-134).  We model
the allocation's state and run finite sequences of clone/drop steps over
it; a step is only defined (`some`) while a live handle exists, i.e.
while the allocation is live and the count is positive — exactly the
safety precondition the source's comments state for `clone`/`drop`. -/

inductive ArcOp
  | cloneOp
  | dropOp
  deriving DecidableEq, Repr

structure ArcState where
  refCount : Nat
  allocated : Bool
  deriving DecidableEq, Repr

/-- `Arc::new(data)`: count starts at 1, allocation live (sync.rs:82-90). -/
def arcNew : ArcState := { refCount := 1, allocated := true }

/-- One clone or drop step on the allocation.  Returns the new state and
whether the backing allocation was freed by this step (`Arc::drop` frees
exactly when the decremented count reads zero, sync.rs:126-132);
`none` when no live handle exists to invoke the operation on. -/
def arcStep (s : ArcState) : ArcOp → Option (ArcState × Bool)
  | ArcOp.cloneOp =>
    if s.allocated ∧ 0 < s.refCount then
      some ({ refCount := s.refCount + 1, allocated := true }, false)
    else none
  | ArcOp.dropOp =>
    if s.allocated ∧ 0 < s.refCount then
      if s.refCount - 1 = 0 then
        some ({ refCount := 0, allocated := false }, true)
      else
        some ({ refCount := s.refCount - 1, allocated := true }, false)
    else none

/-- Run a finite sequence of clone/drop operations, collecting for each
step whether it freed the backing allocation. -/
def arcRun (s : ArcState) : List ArcOp → Option (ArcState × List Bool)
  | [] => some (s, [])
  | op :: ops =>
    match arcStep s op with
    | none => none
    | some (s', freed) =>
      match arcRun s' ops with
      | none => none
      | some (s'', fs) => some (s'', freed :: fs)

theorem arcRun_dead (ops : List ArcOp) (c : Nat) (out : ArcState × List Bool)
    (h : arcRun { refCount := c, allocated := false } ops = some out) :
    ops = [] ∧ out = ({ refCount := c, allocated := false }, []) := by
  cases ops with
  | nil => simpa [arcRun] using h.symm
  | cons op ops =>
    cases op <;> simp [arcRun, arcStep] at h

theorem arcRun_length (ops : List ArcOp) :
    ∀ (s : ArcState) (out : ArcState × List Bool),
      arcRun s ops = some out → out.2.length = ops.length := by
  induction ops with
  | nil =>
    intro s out h
    simp [arcRun] at h
    simp [← h]
  | cons op ops ih =>
    intro s out h
    unfold arcRun at h
    cases hstep : arcStep s op with
    | none => rw [hstep] at h; exact absurd h (by simp)
    | some p =>
      obtain ⟨s', freed⟩ := p
      rw [hstep] at h
      simp only [] at h
      cases hrec : arcRun s' ops with
      | none => rw [hrec] at h; exact absurd h (by simp)
      | some q =>
        rw [hrec] at h
        have := ih s' q hrec
        simp at h
        simp [← h, this]

/-- Number of `clone` operations in a sequence. -/
def numClones : List ArcOp → Nat
  | [] => 0
  | ArcOp.cloneOp :: ops => numClones ops + 1
  | ArcOp.dropOp :: ops => numClones ops

/-- Number of `drop` operations in a sequence. -/
def numDrops : List ArcOp → Nat
  | [] => 0
  | ArcOp.cloneOp :: ops => numDrops ops
  | ArcOp.dropOp :: ops => numDrops ops + 1

theorem arcRun_freed_iff (ops : List ArcOp) :
    ∀ c : Nat, 0 < c → ∀ out : ArcState × List Bool,
      arcRun { refCount := c, allocated := true } ops = some out →
      (∀ i, i < ops.length →
          (out.2.getD i false = true ↔
            numDrops (ops.take (i + 1)) = c + numClones (ops.take (i + 1)))) ∧
      out.2.count true ≤ 1 := by
  induction ops with
  | nil =>
    intro c hc out h
    simp [arcRun] at h
    constructor
    · intro i hi; simp at hi
    · simp [← h]
  | cons op ops ih =>
    intro c hc out h
    unfold arcRun at h
    cases op with
    | cloneOp =>
      rw [show arcStep { refCount := c, allocated := true } ArcOp.cloneOp
            = some ({ refCount := c + 1, allocated := true }, false) by
          simp [arcStep, hc]] at h
      simp only [] at h
      cases hrec : arcRun { refCount := c + 1, allocated := true } ops with
      | none => rw [hrec] at h; exact absurd h (by simp)
      | some q =>
        rw [hrec] at h
        simp at h
        obtain ⟨hs, hfl⟩ := ih (c + 1) (by omega) q hrec
        subst h
        constructor
        · intro i hi
          cases i with
          | zero => simp [numDrops, numClones]
          | succ j =>
            simp only [List.getD_cons_succ, List.take_succ_cons, numDrops, numClones]
            rw [hs j (by simpa using hi)]
            omega
        · simpa using hfl
    | dropOp =>
      by_cases hc1 : c = 1
      · subst hc1
        rw [show arcStep { refCount := 1, allocated := true } ArcOp.dropOp
              = some ({ refCount := 0, allocated := false }, true) by
            simp [arcStep]] at h
        simp only [] at h
        cases hrec : arcRun { refCount := 0, allocated := false } ops with
        | none => rw [hrec] at h; exact absurd h (by simp)
        | some q =>
          rw [hrec] at h
          simp at h
          obtain ⟨hops, hq⟩ := arcRun_dead ops 0 q hrec
          subst hops hq
          subst h
          constructor
          · intro i hi
            simp at hi
            subst hi
            simp [numDrops, numClones]
          · simp
      · rw [show arcStep { refCount := c, allocated := true } ArcOp.dropOp
              = some ({ refCount := c - 1, allocated := true }, false) by
            simp [arcStep, hc]; omega] at h
        simp only [] at h
        cases hrec : arcRun { refCount := c - 1, allocated := true } ops with
        | none => rw [hrec] at h; exact absurd h (by simp)
        | some q =>
          rw [hrec] at h
          simp at h
          obtain ⟨hs, hfl⟩ := ih (c - 1) (by omega) q hrec
          subst h
          constructor
          · intro i hi
            cases i with
            | zero => simp [numDrops, numClones]; omega
            | succ j =>
              simp only [List.getD_cons_succ, List.take_succ_cons, numDrops, numClones]
              rw [hs j (by simpa using hi)]
              omega
          · simpa using hfl

/-- **C1.** For every finite sequence of clone/drop operations on an `Arc`
starting from `Arc::new` (count = 1), the step flags record a
deallocation exactly at the prefix where the number of drops equals
1 (the construction) plus the number of clones, and deallocation
happens at most once over the whole run.  Clone increments the count by
one and drop decrements it, freeing only on the 1-to-0 transition
(guaranteed atomic by the `ref_count` mutex), as `arcStep` embeds from
sync.rs:106-134. -/
theorem c1_arc_refcount (ops : List ArcOp) (out : ArcState × List Bool)
    (h : arcRun arcNew ops = some out) :
    (∀ i, i < ops.length →
        (out.2.getD i false = true ↔
          numDrops (ops.take (i + 1)) = 1 + numClones (ops.take (i + 1)))) ∧
    out.2.count true ≤ 1 :=
  arcRun_freed_iff ops 1 (by omega) out h

/-- Witness for C1 at the concrete run `[clone, drop, drop]`, whose
final drop frees the allocation. -/
theorem c1_arc_refcount_witness :
    (∀ i, i < ([ArcOp.cloneOp, ArcOp.dropOp, ArcOp.dropOp] : List ArcOp).length →
        ((({ refCount := 0, allocated := false }, [false, false, true]) :
            ArcState × List Bool).2.getD i false = true ↔
          numDrops (([ArcOp.cloneOp, ArcOp.dropOp, ArcOp.dropOp] : List ArcOp).take (i + 1)) =
            1 + numClones (([ArcOp.cloneOp, ArcOp.dropOp, ArcOp.dropOp] : List ArcOp).take (i + 1)))) ∧
    (([false, false, true] : List Bool).count true ≤ 1) :=
  c1_arc_refcount [ArcOp.cloneOp, ArcOp.dropOp, ArcOp.dropOp]
    ({ refCount := 0, allocated := false }, [false, false, true]) (by decide)

/-! ## `executor.rs`: `tick` and the global queue lock

`tick()` (executor.rs:19-26) binds `let mut queue = TASK_QUEUE.lock();`
and then runs `while let Some(task) = queue.pop() { ...; fut.poll(...) }`.
The `MutexGuard` named `queue` lives until `tick` returns, so spinlock 0
is acquired once before the loop and released once after it.  We embed
the order of lock/pop/poll events of one `tick` call on a queue of `n`
tasks. -/

inductive TickEvent
  | acquireQ
  | popTask
  | pollTask
  | releaseQ
  deriving DecidableEq, Repr

/-- Events of the `while let Some(task) = queue.pop()` body, iterated
once per initially queued task (executor.rs:21-25). -/
def tickLoop : Nat → List TickEvent
  | 0 => []
  | n + 1 => TickEvent.popTask :: TickEvent.pollTask :: tickLoop n

/-- Events of one `tick()` call on a queue holding `n` tasks:
`TASK_QUEUE.lock()` first, the pop/poll loop, and the guard's release
when `tick` returns (executor.rs:19-26). -/
def tickTrace (n : Nat) : List TickEvent :=
  TickEvent.acquireQ :: (tickLoop n ++ [TickEvent.releaseQ])

/-- Number of acquisitions minus releases of the global queue lock in a
prefix of events; positive means spinlock 0 is held. -/
def qLockDepth (tr : List TickEvent) : Nat :=
  tr.count TickEvent.acquireQ - tr.count TickEvent.releaseQ

/-- **C2** (the claim is violated by the code).  In `tick()` on a queue
holding one task, the poll of that task's computation (event index 2 of
the trace) happens while the global queue lock is still held: the guard
acquired at index 0 is not released before any event of the loop body,
and no release event precedes the poll.  This contradicts the claim
that tick releases the queue lock after popping and before polling; a
wake invoked during the poll re-acquires spinlock 0, which `tick` still
holds. -/
theorem c2_tick_holds_queue_lock :
    (tickTrace 1).getD 2 TickEvent.releaseQ = TickEvent.pollTask ∧
    0 < qLockDepth ((tickTrace 1).take 2) ∧
    (tickTrace 1).getD 0 TickEvent.pollTask ≠ TickEvent.releaseQ ∧
    (tickTrace 1).getD 1 TickEvent.pollTask ≠ TickEvent.releaseQ := by
  decide

/-! ## `executor.rs`: the waker vtable and `Arc` loan accounting

`construct_waker` (executor.rs:28-55) builds a `RawWaker` whose data
pointer is an `Arc` loan obtained by `future.clone().to_raw()`, with a
vtable of four functions.  We track the loan accounting of those
functions over an abstract state: the allocation's reference count, the
number of loans held in raw (waker) form, the number of live typed
`Arc` handles local to the running function, and the number of handles
stored in `TASK_QUEUE`.  Each primitive below is one source operation:
`Arc::clone` (count + 1, sync.rs:106-117), `Arc::drop` (count − 1,
sync.rs:119-134), `Arc::from_raw` (raw loan becomes a typed handle,
count untouched, sync.rs:99-103), `Arc::to_raw` / `forget` (typed
handle becomes a raw loan, count untouched, sync.rs:91-95), and
`Vec::push` on the queue (the typed handle moves into the queue). -/

structure WakerState where
  refCount : Nat
  rawLoans : Nat
  typedLocal : Nat
  queueLen : Nat
  deriving DecidableEq, Repr

def arcCloneStep (s : WakerState) : WakerState :=
  { s with refCount := s.refCount + 1, typedLocal := s.typedLocal + 1 }

def arcDropStep (s : WakerState) : WakerState :=
  { s with refCount := s.refCount - 1, typedLocal := s.typedLocal - 1 }

def fromRawStep (s : WakerState) : WakerState :=
  { s with rawLoans := s.rawLoans - 1, typedLocal := s.typedLocal + 1 }

def toRawStep (s : WakerState) : WakerState :=
  { s with typedLocal := s.typedLocal - 1, rawLoans := s.rawLoans + 1 }

def queuePushStep (s : WakerState) : WakerState :=
  { s with typedLocal := s.typedLocal - 1, queueLen := s.queueLen + 1 }

/-- `construct_waker(future)` (executor.rs:28-55): does
`future.clone().to_raw()` to mint the new waker's raw loan, and drops
its by-value argument `future` when it returns. -/
def construct_waker (s : WakerState) : WakerState :=
  arcDropStep (toRawStep (arcCloneStep s))

/-- Vtable `clone` (executor.rs:31-36): `Arc::from_raw(data)`, pass
`data.clone()` to `construct_waker`, then `forget(data)` so the
original waker keeps its loan. -/
def wakerCloneFn (s : WakerState) : WakerState :=
  toRawStep (construct_waker (arcCloneStep (fromRawStep s)))

/-- Vtable `wake` (by value, executor.rs:37-41): `Arc::from_raw(data)`,
then `TASK_QUEUE.lock().push(data)` — the handle, and with it the
waker's loan, moves into the queue.  (The source's trailing
`drop(data)` refers to the already-moved value and performs nothing.) -/
def wakerWakeFn (s : WakerState) : WakerState :=
  queuePushStep (fromRawStep s)

/-- Vtable `wake_by_ref` (executor.rs:42-46): `Arc::from_raw(data)`,
`TASK_QUEUE.lock().push(data.clone())`, then `forget(data)` so the
waker keeps its own loan. -/
def wakerWakeByRefFn (s : WakerState) : WakerState :=
  toRawStep (queuePushStep (arcCloneStep (fromRawStep s)))

/-- Vtable `drop` (executor.rs:47-50): `Arc::from_raw(data)` then drop
it — the waker's loan is released, nothing is enqueued. -/
def wakerDropFn (s : WakerState) : WakerState :=
  arcDropStep (fromRawStep s)

/-- **C3.** For a wake handle holding a loan on a queued task's shared
cell (a state with at least one raw loan, positive reference count and
no live local handles): `wake_by_ref` pushes a clone onto the global
queue and leaves the handle's own loan intact (count + 1, raw loans
unchanged); `wake` (by value) pushes the handle's loan onto the queue
and consumes the handle (count unchanged, raw loans − 1); `clone`
mints a second waker loan and increments the count by one; `drop`
releases the handle's loan (count − 1) without enqueueing anything. -/
theorem c3_waker_vtable (s : WakerState)
    (hraw : 0 < s.rawLoans) (hrc : 0 < s.refCount) (hty : s.typedLocal = 0) :
    wakerWakeByRefFn s =
      { s with refCount := s.refCount + 1, queueLen := s.queueLen + 1 } ∧
    wakerWakeFn s =
      { s with rawLoans := s.rawLoans - 1, queueLen := s.queueLen + 1 } ∧
    (wakerWakeFn s).refCount = s.refCount ∧
    wakerCloneFn s =
      { s with refCount := s.refCount + 1, rawLoans := s.rawLoans + 1 } ∧
    wakerDropFn s =
      { s with refCount := s.refCount - 1, rawLoans := s.rawLoans - 1 } ∧
    (wakerDropFn s).queueLen = s.queueLen := by
  obtain ⟨rc, raw, ty, q⟩ := s
  simp at hty hraw hrc
  subst hty
  refine ⟨?_, ?_, ?_, ?_, ?_, ?_⟩ <;>
    simp [wakerWakeByRefFn, wakerWakeFn, wakerCloneFn, wakerDropFn,
      construct_waker, arcCloneStep, arcDropStep, fromRawStep, toRawStep,
      queuePushStep, WakerState.mk.injEq] <;>
    omega

/-- Witness for C3 at the concrete state with one raw loan, count 1,
no local handles and an empty queue. -/
theorem c3_waker_vtable_witness :
    wakerWakeByRefFn ⟨1, 1, 0, 0⟩ =
      { (⟨1, 1, 0, 0⟩ : WakerState) with refCount := 1 + 1, queueLen := 0 + 1 } ∧
    wakerWakeFn ⟨1, 1, 0, 0⟩ =
      { (⟨1, 1, 0, 0⟩ : WakerState) with rawLoans := 1 - 1, queueLen := 0 + 1 } ∧
    (wakerWakeFn ⟨1, 1, 0, 0⟩).refCount = 1 ∧
    wakerCloneFn ⟨1, 1, 0, 0⟩ =
      { (⟨1, 1, 0, 0⟩ : WakerState) with refCount := 1 + 1, rawLoans := 1 + 1 } ∧
    wakerDropFn ⟨1, 1, 0, 0⟩ =
      { (⟨1, 1, 0, 0⟩ : WakerState) with refCount := 1 - 1, rawLoans := 1 - 1 } ∧
    (wakerDropFn ⟨1, 1, 0, 0⟩).queueLen = 0 :=
  c3_waker_vtable ⟨1, 1, 0, 0⟩ (by decide) (by decide) (by decide)

/-! ## `executor.rs`: `TaskHandle` polling

`TaskHandle<T>` holds a `return_value : Arc<Mutex<Option<T>>>` cell and
a `waker : Arc<Mutex<Option<Waker>>>` cell (executor.rs:71-74).  Its
`Future::poll` (executor.rs:103-118) locks the result cell; if
`return_value.take()` yields a value it returns `Poll::Ready` with it,
otherwise it stores `cx.waker().clone()` into the waker cell and
returns `Poll::Pending`.  Wakers are modelled by opaque `Nat`
identities. -/

structure TaskHandleState (T : Type) where
  return_value : Option T
  waker : Option Nat
  deriving DecidableEq, Repr

inductive PollResult (T : Type)
  | Ready (v : T)
  | Pending
  deriving DecidableEq, Repr

/-- `TaskHandle::poll` (executor.rs:108-117): `return_value.take()` on
success empties the cell and is returned `Ready`; otherwise the current
context's waker is stored (overwriting the cell) and `Pending` is
returned. -/
def taskHandlePoll {T : Type} (s : TaskHandleState T) (cxWaker : Nat) :
    PollResult T × TaskHandleState T :=
  match s.return_value with
  | some v => (PollResult.Ready v, { s with return_value := none })
  | none => (PollResult.Pending, { s with waker := some cxWaker })

/-- **C6.** If the result cell holds a value, poll removes it and
returns it as done; otherwise poll stores the caller's wake handle into
the waker cell, overwriting whatever was there, and returns
not-yet-done. -/
theorem c6_taskhandle_poll {T : Type} (s : TaskHandleState T) (w : Nat) :
    (∀ v, s.return_value = some v →
        taskHandlePoll s w =
          (PollResult.Ready v, { return_value := none, waker := s.waker })) ∧
    (s.return_value = none →
        taskHandlePoll s w =
          (PollResult.Pending, { return_value := none, waker := some w })) := by
  constructor
  · intro v hv
    simp [taskHandlePoll, hv]
  · intro hv
    simp [taskHandlePoll, hv]

/-- Witness for C6: polling a handle whose result cell holds `42`
(stored waker `7`) yields `Ready 42` and empties the cell; polling the
emptied handle with waker `9` stores waker `9` and yields `Pending`. -/
theorem c6_taskhandle_poll_witness :
    taskHandlePoll ({ return_value := some 42, waker := some 7 } :
        TaskHandleState Nat) 9 =
      (PollResult.Ready 42, { return_value := none, waker := some 7 }) ∧
    taskHandlePoll ({ return_value := none, waker := some 7 } :
        TaskHandleState Nat) 9 =
      (PollResult.Pending, { return_value := none, waker := some 9 }) :=
  ⟨(c6_taskhandle_poll { return_value := some 42, waker := some 7 } 9).1 42 rfl,
   (c6_taskhandle_poll { return_value := none, waker := some 7 } 9).2 rfl⟩

/-- Poll the handle repeatedly, once per listed caller waker, threading
the state. -/
def taskHandlePollMany {T : Type} (s : TaskHandleState T) :
    List Nat → List (PollResult T) × TaskHandleState T
  | [] => ([], s)
  | w :: ws =>
    ((taskHandlePoll s w).1 :: (taskHandlePollMany (taskHandlePoll s w).2 ws).1,
     (taskHandlePollMany (taskHandlePoll s w).2 ws).2)

theorem taskHandlePollMany_empty {T : Type} (ws : List Nat) :
    ∀ s : TaskHandleState T, s.return_value = none →
      (∀ r ∈ (taskHandlePollMany s ws).1, r = PollResult.Pending) ∧
      (taskHandlePollMany s ws).2.return_value = none := by
  induction ws with
  | nil => intro s hs; simpa [taskHandlePollMany]
  | cons w ws ih =>
    intro s hs
    have hstep : taskHandlePoll s w =
        (PollResult.Pending, { s with waker := some w }) := by
      simp [taskHandlePoll, hs]
    have hnone : ({ s with waker := some w } :
        TaskHandleState T).return_value = none := hs
    obtain ⟨ihr, ihs⟩ := ih { s with waker := some w } hnone
    constructor
    · intro r hr
      simp only [taskHandlePollMany, hstep, List.mem_cons] at hr
      rcases hr with hr | hr
      · exact hr
      · exact ihr r hr
    · simp only [taskHandlePollMany, hstep]
      exact ihs

/-- **C7.** Once a poll has yielded the handle's result, every later
poll finds the result cell empty, stores that poll's caller waker, and
reports not-yet-done — it never yields a second value (and the embedded
`taskHandlePoll` is total, so no abort path exists). -/
theorem c7_taskhandle_no_second_value {T : Type} (s : TaskHandleState T)
    (w : Nat) (v : T) (s' : TaskHandleState T)
    (h : taskHandlePoll s w = (PollResult.Ready v, s')) (ws : List Nat) :
    (∀ r ∈ (taskHandlePollMany s' ws).1, r = PollResult.Pending) ∧
    (taskHandlePollMany s' ws).2.return_value = none := by
  have hs' : s'.return_value = none := by
    rcases hv : s.return_value with _ | v'
    · simp [taskHandlePoll, hv] at h
    · simp [taskHandlePoll, hv] at h
      rw [← h.2]
  exact taskHandlePollMany_empty ws s' hs'

/-- Witness for C7: after the poll that yields `42`, two further polls
(with wakers `1` then `2`) both report `Pending`. -/
theorem c7_taskhandle_no_second_value_witness :
    (∀ r ∈ (taskHandlePollMany
        ({ return_value := none, waker := some 7 } : TaskHandleState Nat)
        [1, 2]).1, r = PollResult.Pending) ∧
    (taskHandlePollMany
        ({ return_value := none, waker := some 7 } : TaskHandleState Nat)
        [1, 2]).2.return_value = none :=
  c7_taskhandle_no_second_value
    ({ return_value := some 42, waker := some 7 } : TaskHandleState Nat) 9 42
    { return_value := none, waker := some 7 } (by decide) [1, 2]

/-! ## `jumpstart.rs`: the core-1 bootstrap handshake

`spawn` (jumpstart.rs:122-174) builds the six-word command sequence
`cmd_seq = [0, 0, 1, vector_table, stack_ptr, core1_startup]` and runs
the mailbox loop: send `cmd_seq[seq]`, read one response word; on an
exact echo `seq += 1`, otherwise `seq = 0; fails += 1;` and when
`fails > 16` the closure is reclaimed (`drop(ManuallyDrop::into_inner(entry))`)
and the call panics; the loop exits successfully when `seq`
reaches `cmd_seq.len()`.  We model the responding core as an oracle
list of response words and record per step the word sent, the response
read, and whether the protocol advanced. -/

structure HsStep where
  sent : Nat
  response : Nat
  advanced : Bool
  deriving DecidableEq, Repr

/-- Outcome of the handshake loop: success, the `fails > 16` branch
(recording whether the caller's closure was dropped before the panic),
or running out of oracle responses while still looping. -/
inductive HsOutcome
  | done
  | panicked (closureDropped : Bool)
  | starved
  deriving DecidableEq, Repr

/-- The six-word command sequence (jumpstart.rs:122-129). -/
def cmd_seq (vector_table stack_ptr trampoline : Nat) : List Nat :=
  [0, 0, 1, vector_table, stack_ptr, trampoline]

/-- The handshake loop of `spawn` (jumpstart.rs:131-174), one iteration
per oracle response.  Mirrors the source exactly: `cmd = cmd_seq[seq]`;
on `cmd == response` increment `seq` and break out successfully once
`seq >= cmd_seq.len()`; otherwise reset `seq` to 0, increment `fails`,
and on `fails > 16` drop the closure and panic. -/
def hsRun (cs : List Nat) : Nat → Nat → List Nat → List HsStep × HsOutcome
  | _, _, [] => ([], HsOutcome.starved)
  | seq, fails, r :: rs =>
    let cmd := cs.getD seq 0
    if cmd = r then
      if cs.length ≤ seq + 1 then
        ([{ sent := cmd, response := r, advanced := true }], HsOutcome.done)
      else
        ({ sent := cmd, response := r, advanced := true } ::
            (hsRun cs (seq + 1) fails rs).1,
          (hsRun cs (seq + 1) fails rs).2)
    else
      if 16 < fails + 1 then
        ([{ sent := cmd, response := r, advanced := false }],
          HsOutcome.panicked true)
      else
        ({ sent := cmd, response := r, advanced := false } ::
            (hsRun cs 0 (fails + 1) rs).1,
          (hsRun cs 0 (fails + 1) rs).2)

/-- Number of mismatched (non-advancing) steps in a handshake trace. -/
def hsMismatches (tr : List HsStep) : Nat :=
  tr.countP fun st => !st.advanced

theorem hsRun_advanced_iff (rs : List Nat) :
    ∀ (cs : List Nat) (seq fails : Nat) (st : HsStep),
      st ∈ (hsRun cs seq fails rs).1 →
      (st.advanced = true ↔ st.sent = st.response) := by
  induction rs with
  | nil =>
    intro cs seq fails st h
    simp [hsRun] at h
  | cons r rs ih =>
    intro cs seq fails st h
    simp only [hsRun] at h
    split at h
    · rename_i hcmd
      split at h
      · simp at h
        subst h
        exact iff_of_true rfl (by simpa using hcmd)
      · simp at h
        rcases h with h | h
        · subst h; exact iff_of_true rfl (by simpa using hcmd)
        · exact ih cs (seq + 1) fails st h
    · rename_i hcmd
      split at h
      · simp at h
        subst h
        exact iff_of_false (by simp) (by simpa using hcmd)
      · simp at h
        rcases h with h | h
        · subst h; exact iff_of_false (by simp) (by simpa using hcmd)
        · exact ih cs 0 (fails + 1) st h

/-- With every word echoed exactly, the handshake sends precisely the
six command words in order and completes. -/
theorem hsRun_echo (vt sp tr : Nat) :
    hsRun (cmd_seq vt sp tr) 0 0 (cmd_seq vt sp tr) =
      ([{ sent := 0, response := 0, advanced := true },
        { sent := 0, response := 0, advanced := true },
        { sent := 1, response := 1, advanced := true },
        { sent := vt, response := vt, advanced := true },
        { sent := sp, response := sp, advanced := true },
        { sent := tr, response := tr, advanced := true }], HsOutcome.done) := by
  simp [hsRun, cmd_seq]

/-- A mismatched echo within the failure budget restarts the whole
command sequence from step 0 (not from the failed step) with the
failure counter incremented. -/
theorem hsRun_mismatch (cs : List Nat) (seq fails : Nat) (r : Nat)
    (rs : List Nat) (hne : cs.getD seq 0 ≠ r) (hf : fails < 16) :
    hsRun cs seq fails (r :: rs) =
      ({ sent := cs.getD seq 0, response := r, advanced := false } ::
          (hsRun cs 0 (fails + 1) rs).1,
        (hsRun cs 0 (fails + 1) rs).2) := by
  simp only [hsRun]
  rw [if_neg hne, if_neg (show ¬16 < fails + 1 by omega)]

theorem hsMismatches_cons_adv (s r : Nat) (tr : List HsStep) :
    hsMismatches ({ sent := s, response := r, advanced := true } :: tr) =
      hsMismatches tr := by
  simp [hsMismatches, List.countP_cons]

theorem hsMismatches_cons_mis (s r : Nat) (tr : List HsStep) :
    hsMismatches ({ sent := s, response := r, advanced := false } :: tr) =
      hsMismatches tr + 1 := by
  simp [hsMismatches, List.countP_cons]

/-- The panic branch is taken exactly when the mismatch count reaches
17 (counting from `fails`), and it always drops the closure first. -/
theorem hsRun_panicked_iff (rs : List Nat) :
    ∀ (cs : List Nat) (seq fails : Nat), fails ≤ 16 →
      (((hsRun cs seq fails rs).2 = HsOutcome.panicked true) ↔
        17 ≤ fails + hsMismatches (hsRun cs seq fails rs).1) := by
  induction rs with
  | nil =>
    intro cs seq fails hf
    simp [hsRun, hsMismatches]
    omega
  | cons r rs ih =>
    intro cs seq fails hf
    simp only [hsRun]
    split
    · split
      · simp [hsMismatches]
        omega
      · simp only [hsMismatches_cons_adv]
        exact ih cs (seq + 1) fails hf
    · split
      · rename_i hfail
        simp [hsMismatches]
        omega
      · rename_i hfail
        simp only [hsMismatches_cons_mis]
        rw [ih cs 0 (fails + 1) (by omega)]
        omega

/-- The handshake never reaches the panic branch without dropping the
closure: `HsOutcome.panicked false` is unreachable. -/
theorem hsRun_no_silent_leak (rs : List Nat) :
    ∀ (cs : List Nat) (seq fails : Nat),
      (hsRun cs seq fails rs).2 ≠ HsOutcome.panicked false := by
  induction rs with
  | nil => intro cs seq fails; simp [hsRun]
  | cons r rs ih =>
    intro cs seq fails
    simp only [hsRun]
    split
    · split
      · simp
      · exact ih cs (seq + 1) fails
    · split
      · simp
      · exact ih cs 0 (fails + 1)

/-- **C4.** In a successful bootstrap run in which the responding core
echoes every word, the words written to the mailbox are exactly
`0, 0, 1, vector_table, stack_ptr, trampoline` in that order, each step
advancing; and in any run whatsoever a step advances the protocol if
and only if the responding core echoed back exactly the word that was
sent. -/
theorem c4_handshake_words (vt sp tr : Nat) :
    hsRun (cmd_seq vt sp tr) 0 0 (cmd_seq vt sp tr) =
      ([{ sent := 0, response := 0, advanced := true },
        { sent := 0, response := 0, advanced := true },
        { sent := 1, response := 1, advanced := true },
        { sent := vt, response := vt, advanced := true },
        { sent := sp, response := sp, advanced := true },
        { sent := tr, response := tr, advanced := true }], HsOutcome.done) ∧
    (∀ (cs rs : List Nat) (seq fails : Nat) (st : HsStep),
        st ∈ (hsRun cs seq fails rs).1 →
        (st.advanced = true ↔ st.sent = st.response)) :=
  ⟨hsRun_echo vt sp tr, fun cs rs seq fails st h =>
    hsRun_advanced_iff rs cs seq fails st h⟩

/-- Witness for C4: the echo run at `vector_table = 100`,
`stack_ptr = 200`, `trampoline = 300`, and the advancement criterion
applied to the single step of the run `hsRun [0] 0 0 [0]`. -/
theorem c4_handshake_words_witness :
    hsRun (cmd_seq 100 200 300) 0 0 (cmd_seq 100 200 300) =
      ([{ sent := 0, response := 0, advanced := true },
        { sent := 0, response := 0, advanced := true },
        { sent := 1, response := 1, advanced := true },
        { sent := 100, response := 100, advanced := true },
        { sent := 200, response := 200, advanced := true },
        { sent := 300, response := 300, advanced := true }], HsOutcome.done) ∧
    (true = true ↔ (0 : Nat) = 0) :=
  ⟨(c4_handshake_words 100 200 300).1,
    (c4_handshake_words 100 200 300).2 [0] [0] 0 0
      { sent := 0, response := 0, advanced := true } (by decide)⟩

/-- **C5.** Every echo mismatch within the failure budget restarts the
whole command sequence from step 0 (not just the failed step) and
increments the failure counter; starting from a failure count of at
most 16, the run ends in the "closure reclaimed then panic" outcome
exactly when the cumulative number of mismatches reaches 17, and no
execution reaches the panic without first dropping the caller's
closure. -/
theorem c5_handshake_retry (cs rs : List Nat) (seq fails : Nat)
    (hf : fails ≤ 16) :
    (∀ (r : Nat) (rs' : List Nat), cs.getD seq 0 ≠ r → fails < 16 →
        hsRun cs seq fails (r :: rs') =
          ({ sent := cs.getD seq 0, response := r, advanced := false } ::
              (hsRun cs 0 (fails + 1) rs').1,
            (hsRun cs 0 (fails + 1) rs').2)) ∧
    (((hsRun cs seq fails rs).2 = HsOutcome.panicked true) ↔
        17 ≤ fails + hsMismatches (hsRun cs seq fails rs).1) ∧
    (hsRun cs seq fails rs).2 ≠ HsOutcome.panicked false :=
  ⟨fun r rs' hne hflt => hsRun_mismatch cs seq fails r rs' hne hflt,
   hsRun_panicked_iff rs cs seq fails hf,
   hsRun_no_silent_leak rs cs seq fails⟩

/-- Witness for C5: seventeen consecutive mismatches (command word `0`
answered by `5` every time) drop the closure and panic; the first
conjunct is exercised at the concrete mismatch `0 ≠ 5`. -/
theorem c5_handshake_retry_witness :
    (∀ (r : Nat) (rs' : List Nat), ([0] : List Nat).getD 0 0 ≠ r → 0 < 16 →
        hsRun [0] 0 0 (r :: rs') =
          ({ sent := ([0] : List Nat).getD 0 0, response := r,
              advanced := false } :: (hsRun [0] 0 (0 + 1) rs').1,
            (hsRun [0] 0 (0 + 1) rs').2)) ∧
    (((hsRun [0] 0 0 (List.replicate 17 5)).2 = HsOutcome.panicked true) ↔
        17 ≤ 0 + hsMismatches (hsRun [0] 0 0 (List.replicate 17 5)).1) ∧
    (hsRun [0] 0 0 (List.replicate 17 5)).2 ≠ HsOutcome.panicked false :=
  c5_handshake_retry [0] (List.replicate 17 5) 0 0 (by decide)

/-! ## `reactor.rs`: the interrupt dispatcher

`WAKERS` is a `Mutex<[WakerList; 26], 7>` — 26 independent waker lists
indexed by interrupt line (reactor.rs:10-12).  `DefaultHandler(irqn: i16)`
returns immediately when `irqn < 0`; otherwise it locks the table,
reads `wakers[irqn as usize]` (no upper-bound check) and invokes wake
by reference on every entry of that list (reactor.rs:14-27).  Waker
identities are opaque `Nat`s; the result is the list of wake
invocations performed plus the table afterwards, or `none` for the
out-of-bounds abort of `wakers[irqn as usize]`. -/

/-- Number of interrupt lines of the `WAKERS` table (reactor.rs:12). -/
def NUM_IRQ_LINES : Nat := 26

/-- `DefaultHandler` (reactor.rs:14-27). -/
def defaultHandler (wakers : List (List Nat)) (irqn : Int) :
    Option (List Nat × List (List Nat)) :=
  if irqn < 0 then
    some ([], wakers)
  else
    match wakers[irqn.toNat]? with
    | some waker_list => some (waker_list, wakers)
    | none => none

/-- **C8.** A negative line number returns immediately: no wake handle
is invoked and the reactor table is unchanged.  A genuine line `n`
whose list holds the `k` handles `l` produces exactly `l` as the list
of wake invocations — each registered handle woken exactly once, in
registration order — leaves the table unchanged, and wakes nothing
outside `l` (in particular nothing registered only on another line
`m ≠ n`). -/
theorem c8_interrupt_dispatch (wakers : List (List Nat)) (m : Int)
    (hm : m < 0) (n : Nat) (l : List Nat) (hl : wakers[n]? = some l) :
    defaultHandler wakers m = some ([], wakers) ∧
    defaultHandler wakers (n : Int) = some (l, wakers) ∧
    (∀ w, w ∉ l → ∀ out, defaultHandler wakers (n : Int) = some out →
        w ∉ out.1) := by
  have hnn : ¬((n : Int) < 0) := by omega
  have htn : (n : Int).toNat = n := by omega
  refine ⟨by simp [defaultHandler, hm], ?_, ?_⟩
  · simp [defaultHandler, hnn, htn, hl]
  · intro w hw out hout
    simp [defaultHandler, hnn, htn, hl] at hout
    rw [← hout]
    exact hw

/-- Witness for C8 on a three-line table: line −1 is spurious; firing
line 1 wakes exactly the two handles registered there (`10`, `11`), in
order, leaves the table unchanged, and does not wake handle `20`,
which is registered only on line 2. -/
theorem c8_interrupt_dispatch_witness :
    defaultHandler [[5], [10, 11], [20]] (-1) =
      some ([], [[5], [10, 11], [20]]) ∧
    defaultHandler [[5], [10, 11], [20]] ((1 : Nat) : Int) =
      some ([10, 11], [[5], [10, 11], [20]]) ∧
    (∀ w, w ∉ [10, 11] → ∀ out,
        defaultHandler [[5], [10, 11], [20]] ((1 : Nat) : Int) = some out →
        w ∉ out.1) :=
  c8_interrupt_dispatch [[5], [10, 11], [20]] (-1) (by decide) 1 [10, 11]
    (by decide)

/-- **C10.** The dispatcher indexes the 26-entry table with the
hardware-supplied line number and performs no upper-bound check: on a
26-entry table every non-negative line below 26 hits the in-bounds
lookup (the out-of-bounds branch is unreachable), and the bound is
required — a line number of 26 or more makes the lookup fall outside
the table and the handler abort. -/
theorem c10_dispatch_bounds (wakers : List (List Nat))
    (h26 : wakers.length = NUM_IRQ_LINES) (i j : Int)
    (hi0 : 0 ≤ i) (hilt : i.toNat < NUM_IRQ_LINES) (hj : 26 ≤ j) :
    (defaultHandler wakers i).isSome = true ∧
    defaultHandler wakers j = none := by
  have h26' : wakers.length = 26 := by rw [h26]; rfl
  have hilt' : i.toNat < 26 := by
    have : NUM_IRQ_LINES = 26 := rfl
    omega
  constructor
  · have hneg : ¬(i < 0) := by omega
    have hin : i.toNat < wakers.length := by omega
    simp [defaultHandler, hneg, List.getElem?_eq_getElem hin]
  · have hneg : ¬(j < 0) := by omega
    have hout : wakers.length ≤ j.toNat := by omega
    simp [defaultHandler, hneg, List.getElem?_eq_none hout]

/-- Witness for C10 on the all-empty 26-line table: line 25 is in
bounds, line 26 falls outside the table. -/
theorem c10_dispatch_bounds_witness :
    (defaultHandler (List.replicate 26 []) 25).isSome = true ∧
    defaultHandler (List.replicate 26 []) 26 = none :=
  c10_dispatch_bounds (List.replicate 26 []) (by decide) 25 26
    (by decide) (by decide) (by decide)

/-! ## `jumpstart.rs`: the MPU stack guard of `core1_startup`

`core1_startup` (jumpstart.rs:35-62) computes
`addr = (stack_bottom as u32 + 31) & !31`, then
`subregion_select = 0xff ^ (1 << ((addr >> 5) & 7))`, and programs
`MPU.rbar = (addr & !0xff) | 0x8` and
`MPU.rasr = 1 | (0x7 << 1) | (subregion_select << 8) | 0x10000000`.
All arithmetic is 32-bit; `!31 = 0xFFFFFFE0` and `!0xff = 0xFFFFFF00`.
In the RASR subregion-disable field (bits 8-15) a set bit disables its
32-byte subregion, so the single cleared bit is the one subregion left
enabled. -/

theorem and_mask_shift (x n m : Nat) :
    x &&& ((2 ^ m - 1) <<< n) = ((x >>> n) % 2 ^ m) <<< n := by
  apply Nat.eq_of_testBit_eq
  intro i
  simp only [Nat.testBit_and, Nat.testBit_shiftLeft, Nat.testBit_shiftRight,
    Nat.testBit_mod_two_pow, Nat.testBit_two_pow_sub_one]
  by_cases hni : n ≤ i
  · have : n + (i - n) = i := by omega
    simp [hni, ge_iff_le, this, Bool.and_comm, Bool.and_left_comm]
  · simp [hni, ge_iff_le]

theorem shiftRight_or_distrib (x y n : Nat) :
    (x ||| y) >>> n = (x >>> n) ||| (y >>> n) := by
  apply Nat.eq_of_testBit_eq
  intro i
  simp [Nat.testBit_shiftRight, Nat.testBit_or]

/-- jumpstart.rs:50: `let addr = (stack_bottom as u32 + 31) & !31;`. -/
def guard_addr (stack_bottom : Nat) : Nat :=
  ((stack_bottom + 31) % 2 ^ 32) &&& 0xFFFFFFE0

/-- jumpstart.rs:52:
`let subregion_select = 0xff ^ (1 << ((addr >> 5) & 7));`. -/
def subregion_select (addr : Nat) : Nat :=
  0xff ^^^ (1 <<< ((addr >>> 5) &&& 7))

/-- jumpstart.rs:55: `core.MPU.rbar.write((addr & !0xff) | 0x8)`. -/
def mpu_rbar (stack_bottom : Nat) : Nat :=
  (guard_addr stack_bottom &&& 0xFFFFFF00) ||| 0x8

/-- jumpstart.rs:56-61: the RASR word: enable (bit 0), size 256 bytes
(`0x7 << 1`), subregion-disable mask (bits 8-15), XN (`0x10000000`),
and no access-permission bits. -/
def mpu_rasr (stack_bottom : Nat) : Nat :=
  1 ||| (0x7 <<< 1) ||| (subregion_select (guard_addr stack_bottom) <<< 8) |||
    0x10000000

/-- The bit index `(addr >> 5) & 7` selecting the enabled 32-byte
subregion (the one whose RASR disable bit is cleared). -/
def subregion_index (stack_bottom : Nat) : Nat :=
  (guard_addr stack_bottom >>> 5) &&& 7

/-- The 256-byte-aligned base address programmed into RBAR (its
address field, bits 8-31). -/
def guard_base (stack_bottom : Nat) : Nat :=
  mpu_rbar stack_bottom &&& 0xFFFFFF00

theorem and_high_mask_32 (x : Nat) (hx : x < 2 ^ 32) :
    x &&& 0xFFFFFFE0 = 32 * (x / 32) := by
  have h : (0xFFFFFFE0 : Nat) = (2 ^ 27 - 1) <<< 5 := by
    norm_num [Nat.shiftLeft_eq]
  rw [h, and_mask_shift, Nat.shiftRight_eq_div_pow]
  have hq : x / 2 ^ 5 < 2 ^ 27 := by omega
  rw [Nat.mod_eq_of_lt hq, Nat.shiftLeft_eq]
  omega

theorem and_high_mask_256 (x : Nat) (hx : x < 2 ^ 32) :
    x &&& 0xFFFFFF00 = 256 * (x / 256) := by
  have h : (0xFFFFFF00 : Nat) = (2 ^ 24 - 1) <<< 8 := by
    norm_num [Nat.shiftLeft_eq]
  rw [h, and_mask_shift, Nat.shiftRight_eq_div_pow]
  have hq : x / 2 ^ 8 < 2 ^ 24 := by omega
  rw [Nat.mod_eq_of_lt hq, Nat.shiftLeft_eq]
  omega

theorem guard_addr_eq (sb : Nat) (hsb : sb + 31 < 2 ^ 32) :
    guard_addr sb = 32 * ((sb + 31) / 32) := by
  rw [guard_addr, Nat.mod_eq_of_lt hsb]
  exact and_high_mask_32 _ hsb

theorem guard_addr_lt (sb : Nat) (hsb : sb + 31 < 2 ^ 32) :
    guard_addr sb < 2 ^ 32 := by
  rw [guard_addr_eq sb hsb]
  omega

theorem subregion_index_eq (sb : Nat) :
    subregion_index sb = (guard_addr sb / 32) % 8 := by
  rw [subregion_index, Nat.shiftRight_eq_div_pow]
  rw [show (7 : Nat) = 2 ^ 3 - 1 by norm_num, Nat.and_pow_two_sub_one_eq_mod]

theorem guard_base_eq (sb : Nat) (hsb : sb + 31 < 2 ^ 32) :
    guard_base sb = 256 * (guard_addr sb / 256) := by
  have ha : guard_addr sb < 2 ^ 32 := guard_addr_lt sb hsb
  rw [guard_base, mpu_rbar, and_high_mask_256 _ ha]
  rw [show (0xFFFFFF00 : Nat) = (2 ^ 24 - 1) <<< 8 by
    norm_num [Nat.shiftLeft_eq]]
  rw [and_mask_shift, shiftRight_or_distrib]
  have h1 : (256 * (guard_addr sb / 256)) >>> 8 = guard_addr sb / 256 := by
    rw [Nat.shiftRight_eq_div_pow]
    omega
  have h2 : (8 : Nat) >>> 8 = 0 := by decide
  rw [h1, h2, Nat.or_zero]
  have hq : guard_addr sb / 256 < 2 ^ 24 := by omega
  rw [Nat.mod_eq_of_lt hq, Nat.shiftLeft_eq]
  omega

/-- **C9.** The guard address is the stack bottom rounded up to the
next 32-byte boundary; the programmed region base (RBAR's address
field) is the 256-byte-aligned region containing that address; the
guard address lies inside the 32-byte subregion selected by bit
`(addr >> 5) & 7`, whose RASR subregion-disable bit is the single
cleared one (the other seven are set, i.e. disabled); and the RASR
word enables the region (bit 0), sets size 256 bytes (size field 0x7),
disables instruction fetch (XN, bit 28) and grants no access
permissions (AP field 0). -/
theorem c9_mpu_guard (sb : Nat) (hsb : sb + 31 < 2 ^ 32) :
    guard_addr sb % 32 = 0 ∧ sb ≤ guard_addr sb ∧ guard_addr sb < sb + 32 ∧
    guard_base sb = guard_addr sb - guard_addr sb % 256 ∧
    guard_base sb + 32 * subregion_index sb ≤ guard_addr sb ∧
    guard_addr sb < guard_base sb + 32 * (subregion_index sb + 1) ∧
    (∀ j, j < 8 →
        (mpu_rasr sb).testBit (8 + j) = decide (j ≠ subregion_index sb)) ∧
    (mpu_rasr sb).testBit 0 = true ∧
    ((mpu_rasr sb) >>> 1) &&& 0x1F = 0x7 ∧
    (mpu_rasr sb).testBit 28 = true ∧
    ((mpu_rasr sb) >>> 24) &&& 0x7 = 0 := by
  have ha := guard_addr_eq sb hsb
  have hb := guard_base_eq sb hsb
  have hk := subregion_index_eq sb
  have hk8 : subregion_index sb < 8 := by omega
  have hr : mpu_rasr sb =
      1 ||| (0x7 <<< 1) ||| ((0xff ^^^ (1 <<< subregion_index sb)) <<< 8) |||
        0x10000000 := rfl
  have hbits : ∀ v, v < 8 →
      (∀ j, j < 8 →
        ((1 ||| (0x7 <<< 1) ||| ((0xff ^^^ (1 <<< v)) <<< 8) |||
            0x10000000 : Nat).testBit (8 + j) = decide (j ≠ v))) ∧
      (1 ||| (0x7 <<< 1) ||| ((0xff ^^^ (1 <<< v)) <<< 8) |||
          0x10000000 : Nat).testBit 0 = true ∧
      ((1 ||| (0x7 <<< 1) ||| ((0xff ^^^ (1 <<< v)) <<< 8) |||
          0x10000000 : Nat) >>> 1) &&& 0x1F = 0x7 ∧
      (1 ||| (0x7 <<< 1) ||| ((0xff ^^^ (1 <<< v)) <<< 8) |||
          0x10000000 : Nat).testBit 28 = true ∧
      ((1 ||| (0x7 <<< 1) ||| ((0xff ^^^ (1 <<< v)) <<< 8) |||
          0x10000000 : Nat) >>> 24) &&& 0x7 = 0 := by decide
  obtain ⟨h7, h8, h9, h10, h11⟩ := hbits (subregion_index sb) hk8
  refine ⟨by omega, by omega, by omega, by omega, by omega, by omega,
    ?_, ?_, ?_, ?_, ?_⟩
  · rw [hr]; exact h7
  · rw [hr]; exact h8
  · rw [hr]; exact h9
  · rw [hr]; exact h10
  · rw [hr]; exact h11

/-- Witness for C9 at the concrete stack bottom `0x20000404` (guard
address `0x20000420`, region base `0x20000400`, subregion 1). -/
theorem c9_mpu_guard_witness :
    guard_addr 0x20000404 % 32 = 0 ∧ 0x20000404 ≤ guard_addr 0x20000404 ∧
    guard_addr 0x20000404 < 0x20000404 + 32 ∧
    guard_base 0x20000404 =
      guard_addr 0x20000404 - guard_addr 0x20000404 % 256 ∧
    guard_base 0x20000404 + 32 * subregion_index 0x20000404 ≤
      guard_addr 0x20000404 ∧
    guard_addr 0x20000404 <
      guard_base 0x20000404 + 32 * (subregion_index 0x20000404 + 1) ∧
    (∀ j, j < 8 →
        (mpu_rasr 0x20000404).testBit (8 + j) =
          decide (j ≠ subregion_index 0x20000404)) ∧
    (mpu_rasr 0x20000404).testBit 0 = true ∧
    ((mpu_rasr 0x20000404) >>> 1) &&& 0x1F = 0x7 ∧
    (mpu_rasr 0x20000404).testBit 28 = true ∧
    ((mpu_rasr 0x20000404) >>> 24) &&& 0x7 = 0 :=
  c9_mpu_guard 0x20000404 (by norm_num)
